import Mathlib

/-!
Shallow embedding of the magpie-plugins repository core.

The replicated state (`Library` in src/src/library.rs) is a mapping from
file names to immutable byte blobs, stored in the source as a
`HashMap<String, ByteBuf>`.  We embed the mapping as an association list
with unique-key-preserving insertion; every claim about the resulting
key-to-content mapping is stated through the lookup function, so the
arbitrary iteration order of the hash map is irrelevant.
-/

/-- Bytes of a file, modelling serde ByteBuf (a byte vector). -/
abbrev ByteBuf := List Nat

/-- Lookup of a key in an association list, modelling HashMap::get. -/
def lookupKey {α : Type} : List (String × α) → String → Option α
  | [], _ => none
  | (n, v) :: rest, k => if k = n then some v else lookupKey rest k

/-- Key-presence test in an association list, modelling HashMap::contains_key
(and the membership test behind HashSet::difference in Library::pack). -/
def hasKey {α : Type} : List (String × α) → String → Bool
  | [], _ => false
  | (n, _) :: rest, k => if k = n then true else hasKey rest k

/-- First-defined choice between two optional values: the combinator behind
first-writer-wins lookups. -/
def ofirst {α : Type} : Option α → Option α → Option α
  | some v, _ => some v
  | none, b => b

/-- Insert a binding only when the key is absent, modelling
`self.set.entry(name).or_insert(contents)` in Library::merge (src/src/library.rs:83)
and the existence-guarded file creation in Library::unpack. -/
def addIfAbsent {α : Type} (s : List (String × α)) (n : String) (v : α) :
    List (String × α) :=
  if hasKey s n then s else s ++ [(n, v)]

/-- Fold `addIfAbsent` over a list of bindings: the iteration loop shared by
Library::merge (over the entries of `other`) and Library::unpack (over the
entries of the pack). -/
def foldAdd {α : Type} (s l : List (String × α)) : List (String × α) :=
  l.foldl (fun acc p => addIfAbsent acc p.1 p.2) s

/-- The replicated state: `pub struct Library { set: HashMap<String, ByteBuf> }`
(src/src/library.rs:18-21). -/
structure Library where
  set : List (String × ByteBuf)
deriving DecidableEq

/-- `CrdtPack::new` for Library: the empty mapping (src/src/library.rs:24-28). -/
def Library.new : Library := ⟨[]⟩

/-- The key-to-content mapping denoted by a Library value. -/
def Library.find (l : Library) (k : String) : Option ByteBuf :=
  lookupKey l.set k

/-- `Library::merge` (src/src/library.rs:80-85): for every entry of `other`,
insert it into `self` only when the key is absent. -/
def Library.merge (self other : Library) : Library :=
  ⟨foldAdd self.set other.set⟩

/-- `Library::pack` (src/src/library.rs:47-78), successful run: enumerate the
plain files of the working directory (here given as name-content pairs),
keep those whose name is not already a key of the state, and insert each
with its content.  The read-only chmod applied to captured files is a
filesystem effect with no bearing on the state mapping. -/
def Library.pack (files : List (String × ByteBuf)) (l : Library) : Library :=
  ⟨l.set ++ files.filter (fun p => !(hasKey l.set p.1))⟩

/-- A file in the working directory: its content and its read-only flag. -/
structure FsFile where
  content : ByteBuf
  readonly : Bool
deriving DecidableEq

/-- The working directory, as a mapping from file name to file. -/
abbrev Fs := List (String × FsFile)

/-- `Library::unpack` (src/src/library.rs:30-45): for every entry of the pack,
skip it when a file already exists at the target path, otherwise create the
file with the entry content and mark it read-only.  The state itself is
taken by shared reference and never modified. -/
def Library.unpack (l : Library) (fs : Fs) : Fs :=
  foldAdd fs (l.set.map (fun p => (p.1, FsFile.mk p.2 true)))

/-- `Library::unpack` with its state argument made explicit in the result:
the Rust signature takes `pack: &Library`, so the state component is
returned untouched. -/
def Library.unpackRun (l : Library) (fs : Fs) : Library × Fs :=
  (l, l.unpack fs)

/-- Outcome of reading one newly discovered file during capture. -/
inductive ReadResult where
  | ok (data : ByteBuf)
  | err (e : Nat)
deriving DecidableEq

/-- The insertion loop of `Library::pack` (src/src/library.rs:63-75) with
fallible reads: each new file is opened and read, aborting with the
underlying error; insertions already performed stay in the state. -/
def packGo : Library → List (String × ReadResult) → Library × Option Nat
  | l, [] => (l, none)
  | l, (n, ReadResult.ok d) :: rest => packGo ⟨l.set ++ [(n, d)]⟩ rest
  | l, (_, ReadResult.err e) :: _ => (l, some e)

/-- `Library::pack` with fallible reads: the set difference against the
existing keys is computed first (src/src/library.rs:61-63), then the new
files are processed in order. -/
def packF (files : List (String × ReadResult)) (l : Library) :
    Library × Option Nat :=
  packGo l (files.filter (fun p => !(hasKey l.set p.1)))

/-- `Library::pack` including the enumeration step (src/src/library.rs:49-60):
an error while listing the directory aborts before any insertion. -/
def packFull (listing : Except Nat (List (String × ReadResult)))
    (l : Library) : Library × Option Nat :=
  match listing with
  | Except.error e => (l, some e)
  | Except.ok files => packF files l

/-- Outcome of the rsync pull in `CrdtPack::sync` (src/src/lib.rs:101-119):
the invocation fails, or succeeds without producing a cache blob (remote
object absent), or succeeds and the cache file decodes to a remote state. -/
inductive PullOutcome where
  | failed
  | noBlob
  | blob (remote : Library)

/-- Result of a successful sync cycle: the final in-memory state, the working
directory after materialize, and the bytes at the durable path and at the
cache path after the persist step. -/
structure SyncResult where
  state : Library
  workdir : Fs
  durableBytes : ByteBuf
  cacheBytes : ByteBuf
deriving DecidableEq

/-- The persist step of `CrdtPack::sync` in src/src/lib.rs:125-126: serialize
the state to the durable file, then `copy` those bytes to the cache path. -/
def persist (ser : Library → ByteBuf) (l : Library) : ByteBuf × ByteBuf :=
  let durable := ser l
  (durable, durable)

/-- The persist step of the earlier `CrdtPack::sync` in
src/magpie/src/lib.rs:117-118: serialize the state to the durable file and
serialize the same state again to the cache path. -/
def persistMagpie (ser : Library → ByteBuf) (l : Library) :
    ByteBuf × ByteBuf :=
  (ser l, ser l)

/-- The plain-file listing of the working directory, as seen by capture. -/
def fileContents (fs : Fs) : List (String × ByteBuf) :=
  fs.map (fun p => (p.1, p.2.content))

/-- `CrdtPack::sync` (src/src/lib.rs:92-142): load the durable state and run
capture on it (`load_file` calls `CrdtPack::pack`), run the rsync pull,
merge the remote state only when a cache blob exists, materialize, persist
to the durable file and copy to the cache path, then run the rsync push.
A failed pull or push aborts with an error; `ser` is the serialization of
the durable state codec. -/
def syncRun (ser : Library → ByteBuf) (durable : Library) (fs : Fs)
    (pull : PullOutcome) (pushOk : Bool) : Except String SyncResult :=
  let local0 := Library.pack (fileContents fs) durable
  match pull with
  | PullOutcome.failed => Except.error "rsync pull failed"
  | PullOutcome.noBlob =>
      let fs2 := local0.unpack fs
      let bytes := persist ser local0
      if pushOk then Except.ok ⟨local0, fs2, bytes.1, bytes.2⟩
      else Except.error "rsync push failed"
  | PullOutcome.blob remote =>
      let merged := local0.merge remote
      let fs2 := merged.unpack fs
      let bytes := persist ser merged
      if pushOk then Except.ok ⟨merged, fs2, bytes.1, bytes.2⟩
      else Except.error "rsync push failed"

/-! ## Helper lemmas about the association-list map -/

theorem lookupKey_append {α : Type} (s t : List (String × α)) (k : String) :
    lookupKey (s ++ t) k = ofirst (lookupKey s k) (lookupKey t k) := by
  induction s with
  | nil => simp [lookupKey, ofirst]
  | cons p rest ih =>
    obtain ⟨n, v⟩ := p
    by_cases h : k = n
    · simp [lookupKey, h, ofirst]
    · simp [lookupKey, h, ih]

theorem hasKey_eq_isSome {α : Type} (s : List (String × α)) (k : String) :
    hasKey s k = (lookupKey s k).isSome := by
  induction s with
  | nil => simp [hasKey, lookupKey]
  | cons p rest ih =>
    obtain ⟨n, v⟩ := p
    by_cases h : k = n
    · simp [hasKey, lookupKey, h]
    · simp [hasKey, lookupKey, h, ih]

theorem lookupKey_addIfAbsent {α : Type} (s : List (String × α)) (n : String)
    (v : α) (k : String) :
    lookupKey (addIfAbsent s n v) k
      = ofirst (lookupKey s k) (if k = n then some v else none) := by
  unfold addIfAbsent
  by_cases h : hasKey s n = true
  · rw [if_pos h]
    cases hl : lookupKey s k with
    | some w => simp [ofirst]
    | none =>
      by_cases hk : k = n
      · subst hk
        rw [hasKey_eq_isSome, hl] at h
        simp at h
      · simp [hk, ofirst]
  · rw [if_neg h, lookupKey_append]
    simp [lookupKey]

theorem foldAdd_cons {α : Type} (s : List (String × α)) (q : String × α)
    (rest : List (String × α)) :
    foldAdd s (q :: rest) = foldAdd (addIfAbsent s q.1 q.2) rest := rfl

theorem lookupKey_foldAdd {α : Type} (l s : List (String × α)) (k : String) :
    lookupKey (foldAdd s l) k = ofirst (lookupKey s k) (lookupKey l k) := by
  induction l generalizing s with
  | nil =>
    show lookupKey s k = ofirst (lookupKey s k) (lookupKey [] k)
    cases hl : lookupKey s k <;> simp [lookupKey, ofirst]
  | cons q rest ih =>
    obtain ⟨n, v⟩ := q
    rw [foldAdd_cons, ih, lookupKey_addIfAbsent]
    by_cases hk : k = n
    · cases hs : lookupKey s k <;> simp [lookupKey, hk, ofirst]
    · cases hs : lookupKey s k <;> simp [lookupKey, hk, ofirst]

theorem lookupKey_mapFile (l : List (String × ByteBuf)) (k : String) :
    lookupKey (l.map (fun p => (p.1, FsFile.mk p.2 true))) k
      = (lookupKey l k).map (fun c => FsFile.mk c true) := by
  induction l with
  | nil => simp [lookupKey]
  | cons p rest ih =>
    obtain ⟨n, v⟩ := p
    by_cases h : k = n <;> simp [lookupKey, h, ih]

theorem mem_of_lookupKey {α : Type} (s : List (String × α)) (k : String)
    (v : α) (h : lookupKey s k = some v) : (k, v) ∈ s := by
  induction s with
  | nil => simp [lookupKey] at h
  | cons p rest ih =>
    obtain ⟨n, w⟩ := p
    by_cases hk : k = n
    · rw [lookupKey, if_pos hk] at h
      subst hk
      obtain rfl : w = v := Option.some.inj h
      exact List.mem_cons_self _ _
    · rw [lookupKey, if_neg hk] at h
      exact List.mem_cons_of_mem _ (ih h)

theorem hasKey_append {α : Type} (s t : List (String × α)) (k : String) :
    hasKey (s ++ t) k = (hasKey s k || hasKey t k) := by
  induction s with
  | nil => simp [hasKey]
  | cons p rest ih =>
    obtain ⟨n, v⟩ := p
    by_cases h : k = n <;> simp [hasKey, h, ih]

theorem hasKey_of_mem {α : Type} (s : List (String × α)) (p : String × α)
    (hp : p ∈ s) : hasKey s p.1 = true := by
  induction s with
  | nil => cases hp
  | cons q rest ih =>
    obtain ⟨n, v⟩ := q
    rcases List.mem_cons.mp hp with h | h
    · subst h
      simp [hasKey]
    · by_cases hk : p.1 = n <;> simp [hasKey, hk, ih h]

theorem hasKey_addIfAbsent_self {α : Type} (s : List (String × α))
    (n : String) (v : α) : hasKey (addIfAbsent s n v) n = true := by
  unfold addIfAbsent
  by_cases h : hasKey s n = true
  · rw [if_pos h]; exact h
  · rw [if_neg h, hasKey_append]
    simp [hasKey]

theorem hasKey_addIfAbsent_mono {α : Type} (s : List (String × α))
    (n : String) (v : α) (k : String) (h : hasKey s k = true) :
    hasKey (addIfAbsent s n v) k = true := by
  unfold addIfAbsent
  by_cases hn : hasKey s n = true
  · rw [if_pos hn]; exact h
  · rw [if_neg hn, hasKey_append, h]
    rfl

theorem hasKey_foldAdd_left {α : Type} (l s : List (String × α)) (k : String)
    (h : hasKey s k = true) : hasKey (foldAdd s l) k = true := by
  induction l generalizing s with
  | nil => exact h
  | cons q rest ih =>
    rw [foldAdd_cons]
    exact ih _ (hasKey_addIfAbsent_mono s q.1 q.2 k h)

theorem hasKey_foldAdd_of_mem {α : Type} (s l : List (String × α))
    (p : String × α) (hp : p ∈ l) : hasKey (foldAdd s l) p.1 = true := by
  induction l generalizing s with
  | nil => cases hp
  | cons q rest ih =>
    rw [foldAdd_cons]
    rcases List.mem_cons.mp hp with h | h
    · subst h
      exact hasKey_foldAdd_left rest _ p.1 (hasKey_addIfAbsent_self s p.1 p.2)
    · exact ih _ h

theorem foldAdd_of_all_present {α : Type} (s l : List (String × α))
    (h : ∀ p ∈ l, hasKey s p.1 = true) : foldAdd s l = s := by
  induction l with
  | nil => rfl
  | cons q rest ih =>
    rw [foldAdd_cons]
    have hq : hasKey s q.1 = true := h q (List.mem_cons_self _ _)
    rw [addIfAbsent, if_pos hq]
    exact ih (fun p hp => h p (List.mem_cons_of_mem _ hp))

theorem find_merge (self other : Library) (k : String) :
    (self.merge other).find k = ofirst (self.find k) (other.find k) :=
  lookupKey_foldAdd other.set self.set k

theorem packGo_ok_then_err (l : Library) (pre : List (String × ByteBuf))
    (n : String) (e : Nat) (rest : List (String × ReadResult)) :
    packGo l (pre.map (fun p => (p.1, ReadResult.ok p.2))
        ++ (n, ReadResult.err e) :: rest)
      = (⟨l.set ++ pre⟩, some e) := by
  induction pre generalizing l with
  | nil => simp [packGo]
  | cons q prerest ih =>
    obtain ⟨m, d⟩ := q
    simp only [List.map_cons, List.cons_append]
    rw [packGo, ih]
    simp [List.append_assoc]

/-! ## Claim theorems -/

/-- C1 counterexample: merge is not commutative without a restriction on the
content stored under shared keys.  Two snapshots holding different content
under the key a yield different mappings depending on the merge order,
because the existing entry always wins. -/
theorem merge_not_commutative_on_conflict :
    ¬ ((Library.mk [("a", [0])]).merge (Library.mk [("a", [1])])).find "a"
        = ((Library.mk [("a", [1])]).merge (Library.mk [("a", [0])])).find "a" := by
  decide

/-- C1 amended: merge is commutative on the key-to-content mapping for every
pair of snapshots that assign equal content to every key they share. -/
theorem merge_comm_of_agree (x y : Library)
    (h : ∀ p ∈ x.set, ∀ q ∈ y.set, p.1 = q.1 → p.2 = q.2) (k : String) :
    (x.merge y).find k = (y.merge x).find k := by
  rw [find_merge, find_merge]
  cases hx : x.find k with
  | none =>
    cases hy : y.find k with
    | none => rfl
    | some w => rfl
  | some v =>
    cases hy : y.find k with
    | none => rfl
    | some w =>
      have hv := mem_of_lookupKey x.set k v hx
      have hw := mem_of_lookupKey y.set k w hy
      have hvw : v = w := h (k, v) hv (k, w) hw rfl
      rw [hvw]

/-- Witness for merge_comm_of_agree, at two snapshots with disjoint keys. -/
theorem merge_comm_of_agree_witness :
    ((Library.mk [("a", [0])]).merge (Library.mk [("b", [1])])).find "a"
      = ((Library.mk [("b", [1])]).merge (Library.mk [("a", [0])])).find "a" :=
  merge_comm_of_agree (Library.mk [("a", [0])]) (Library.mk [("b", [1])])
    (by decide) "a"

/-- C2: merge is first-writer-wins on the key-to-content mapping: every key
present in other but absent in self is inserted with the content from
other unchanged, every key present in both keeps the entry from self
unchanged, and keys absent from both stay absent, so merge has no other
effect on self. -/
theorem merge_first_writer_wins (self other : Library) (k : String) :
    (self.merge other).find k = ofirst (self.find k) (other.find k) :=
  find_merge self other k

/-- C3: merge is idempotent: merging the same remote snapshot a second time
leaves the state unchanged, as an equality of Library values. -/
theorem merge_idempotent (S R : Library) :
    (S.merge R).merge R = S.merge R :=
  congrArg Library.mk
    (foldAdd_of_all_present (foldAdd S.set R.set) R.set
      (fun p hp => hasKey_foldAdd_of_mem S.set R.set p hp))

/-- C4: the replica is grow-only: merge preserves every existing key-content
pair and only adds keys coming from the other snapshot with their content;
capture preserves every existing pair and only adds keys read from the
working directory with their content; materialize leaves the state
untouched. -/
theorem grow_only_operations (S R l : Library)
    (files : List (String × ByteBuf)) (fs : Fs) (k : String) (v : ByteBuf) :
    (S.find k = some v → (S.merge R).find k = some v) ∧
    ((S.merge R).find k = some v → S.find k = some v ∨ R.find k = some v) ∧
    (l.find k = some v → (Library.pack files l).find k = some v) ∧
    ((Library.pack files l).find k = some v →
      l.find k = some v ∨ (k, v) ∈ files) ∧
    (l.unpackRun fs).1 = l := by
  refine ⟨?_, ?_, ?_, ?_, rfl⟩
  · intro h
    rw [find_merge, h]
    rfl
  · intro h
    rw [find_merge] at h
    cases hS : S.find k with
    | some w =>
      rw [hS] at h
      exact Or.inl h
    | none =>
      rw [hS] at h
      exact Or.inr h
  · intro h
    simp only [Library.find, Library.pack] at h ⊢
    rw [lookupKey_append, h]
    rfl
  · intro h
    simp only [Library.find, Library.pack] at h
    rw [lookupKey_append] at h
    cases hl : lookupKey l.set k with
    | some w =>
      rw [hl] at h
      exact Or.inl (by simp only [Library.find]; rw [hl]; exact h)
    | none =>
      rw [hl] at h
      have hm := mem_of_lookupKey (files.filter (fun p => !(hasKey l.set p.1))) k v h
      exact Or.inr (List.mem_of_mem_filter hm)

/-- Witness for grow_only_operations: an existing pair survives a merge. -/
theorem grow_only_operations_witness :
    ((Library.mk [("a", [0])]).merge Library.new).find "a" = some [0] :=
  (grow_only_operations (Library.mk [("a", [0])]) Library.new Library.new
      [] [] "a" [0]).1 (by decide)

/-- C5: capture is additive-only and idempotent: starting from the empty
state, capturing a working directory yields a state holding exactly the
listed files with their content, and capturing the same directory a second
time with no filesystem change leaves the state unchanged. -/
theorem pack_additive_idempotent (files : List (String × ByteBuf))
    (l : Library) :
    Library.pack files Library.new = Library.mk files ∧
    Library.pack files (Library.pack files l) = Library.pack files l := by
  constructor
  · simp [Library.pack, Library.new, hasKey]
  · have hall : ∀ p ∈ files, hasKey (Library.pack files l).set p.1 = true := by
      intro p hp
      show hasKey (l.set ++ files.filter (fun q => !(hasKey l.set q.1))) p.1
          = true
      rw [hasKey_append]
      by_cases h : hasKey l.set p.1 = true
      · rw [h]
        rfl
      · have hpf : p ∈ files.filter (fun q => !(hasKey l.set q.1)) :=
          List.mem_filter.mpr ⟨hp, by simp [h]⟩
        rw [hasKey_of_mem _ p hpf]
        simp
    have hnil : files.filter
        (fun p => !(hasKey (Library.pack files l).set p.1)) = [] := by
      rw [List.filter_eq_nil_iff]
      intro p hp
      simp [hall p hp]
    show Library.mk ((Library.pack files l).set ++ files.filter
        (fun p => !(hasKey (Library.pack files l).set p.1)))
      = Library.pack files l
    rw [hnil, List.append_nil]

/-- C6: materialize never overwrites: for every key whose path already holds
a file, the file is kept with its content and flags unchanged, whatever the
state holds under that key; at paths holding no file, a file is created
exactly when the state has an entry, with the content of the entry and
marked read-only. -/
theorem unpack_never_overwrites (l : Library) (fs : Fs) (k : String) :
    lookupKey (l.unpack fs) k
      = ofirst (lookupKey fs k) ((l.find k).map (fun c => FsFile.mk c true)) := by
  unfold Library.unpack
  rw [lookupKey_foldAdd, lookupKey_mapFile]
  rfl

/-- C7 counterexample: a sync cycle in which the remote object does not
exist can still fail as a whole, because the final push step aborts the
cycle when the rsync push fails. -/
theorem sync_noBlob_push_failure :
    syncRun (fun _ => []) Library.new [] PullOutcome.noBlob false
      = Except.error "rsync push failed" := rfl

/-- C7 amended: whenever the remote object does not exist, the merge step is
skipped and, provided the remaining steps succeed (here: the final push),
the sync cycle completes successfully with the resulting local state equal
to the loaded state plus locally captured files and nothing else. -/
theorem sync_tolerant_pull (ser : Library → ByteBuf) (durable : Library)
    (fs : Fs) :
    syncRun ser durable fs PullOutcome.noBlob true
      = Except.ok (SyncResult.mk (Library.pack (fileContents fs) durable)
          ((Library.pack (fileContents fs) durable).unpack fs)
          (ser (Library.pack (fileContents fs) durable))
          (ser (Library.pack (fileContents fs) durable))) := rfl

/-- C8: after the persist step of every successful sync, the cache path
holds a byte-identical copy of the bytes written to the local durable
state file; likewise for the earlier version that reserializes the same
state to both paths. -/
theorem sync_persist_cache_matches (ser : Library → ByteBuf)
    (durable : Library) (fs : Fs) (pull : PullOutcome) (pushOk : Bool)
    (out : SyncResult) (h : syncRun ser durable fs pull pushOk = Except.ok out) :
    out.cacheBytes = out.durableBytes ∧
      ∀ l : Library, (persistMagpie ser l).2 = (persistMagpie ser l).1 := by
  refine ⟨?_, fun l => rfl⟩
  cases pull with
  | failed => simp [syncRun] at h
  | noBlob =>
    cases pushOk with
    | false => simp [syncRun] at h
    | true =>
      simp only [syncRun, if_true, Except.ok.injEq] at h
      rw [← h]
      rfl
  | blob remote =>
    cases pushOk with
    | false => simp [syncRun] at h
    | true =>
      simp only [syncRun, if_true, Except.ok.injEq] at h
      rw [← h]
      rfl

/-- Witness for sync_persist_cache_matches at a concrete successful cycle. -/
theorem sync_persist_cache_matches_witness :
    (SyncResult.mk Library.new [] [] []).cacheBytes
        = (SyncResult.mk Library.new [] [] []).durableBytes ∧
      ∀ l : Library,
        (persistMagpie (fun _ => []) l).2 = (persistMagpie (fun _ => []) l).1 :=
  sync_persist_cache_matches (fun _ => []) Library.new [] PullOutcome.noBlob
    true (SyncResult.mk Library.new [] [] []) rfl

/-- C9: capture is not transactional on failure: when the directory listing
itself fails, the error is returned with the state untouched; when reading
the k-th newly discovered file fails, the error is returned and every
entry inserted for the files processed before the failure remains in the
state. -/
theorem pack_partial_on_failure (l : Library)
    (files : List (String × ReadResult)) (pre : List (String × ByteBuf))
    (n : String) (e : Nat) (rest : List (String × ReadResult))
    (h : files.filter (fun p => !(hasKey l.set p.1))
        = pre.map (fun p => (p.1, ReadResult.ok p.2))
          ++ (n, ReadResult.err e) :: rest) :
    packF files l = (Library.mk (l.set ++ pre), some e) ∧
      ∀ e2 : Nat, packFull (Except.error e2) l = (l, some e2) := by
  refine ⟨?_, fun e2 => rfl⟩
  unfold packF
  rw [h]
  exact packGo_ok_then_err l pre n e rest

/-- Witness for pack_partial_on_failure: the second file read fails, the
first file stays captured. -/
theorem pack_partial_on_failure_witness :
    packF [("a", ReadResult.ok [1]), ("b", ReadResult.err 7)] Library.new
        = (Library.mk [("a", [1])], some 7) ∧
      ∀ e2 : Nat,
        packFull (Except.error e2) Library.new = (Library.new, some e2) :=
  pack_partial_on_failure Library.new
    [("a", ReadResult.ok [1]), ("b", ReadResult.err 7)]
    [("a", [1])] "b" 7 [] (by decide)

/-- C10: the freshly constructed empty state is a two-sided identity for
merge: merging it into any state x leaves x unchanged, and merging x into
it yields exactly the key-to-content mapping of x. -/
theorem merge_empty_identity (x : Library) :
    x.merge Library.new = x ∧
      ∀ k, (Library.new.merge x).find k = x.find k := by
  constructor
  · rfl
  · intro k
    rw [find_merge]
    rfl
